import Mathlib

/-!
Verification of the TrekMind route-resolution pipeline
(`src/client/src/components/RouteMap.tsx`).

The pipeline resolves a trek itinerary (a list of free-text stops) into an
ordered list of coordinate-resolved stops.  This file gives a shallow
embedding of the resolution logic — the location-name parser, the
vague-name classifier, the cached geocode resolver, the per-stop fan-out
and the neighbour interpolation — and proves or refutes the specified
properties.

Modelling conventions:
* JS strings are modelled as `String` / `List Char`; the three regexes of
  the source (`\bto\s+(.+)$`, `\s*\(.*?\)` global replace, and the `VAGUE`
  patterns) are transliterated to recursive character scans with JS
  leftmost-match and greedy/lazy backtracking semantics.  The JS classes
  `\s`, `\d`, `\w` and the line-terminator exclusion of `.` are modelled
  over their ASCII parts.
* JS numbers are modelled as `ℚ`.  The haversine helper `distanceKm` is
  built from `Math.sin`, `Math.cos`, `Math.atan2` and `Math.sqrt` over IEEE
  doubles, which have no executable shallow embedding; the resolver is
  therefore parametrised over the distance function (`Dist`).  The claims
  only constrain how its result is compared against the 1000 km radius.
* The network is modelled as an environment `Env` mapping the request
  determinants (name, country, trek longitude, trek latitude) to the fetch
  outcome; a thrown exception, a non-ok response, a response without
  coordinates and a coordinate response are the four cases.
* The module-level `Map` cache is threaded explicitly as an association
  list; `Map.set` is modelled by shadowing prepend.
* The concurrent `Promise.all` fan-out is modelled by the sequential
  left-to-right interleaving; every claim under study is insensitive to
  the interleaving (the cache is write-once, see `geocode` lemmas).
* The object spreads of the source are modelled by an `OutStop` record
  that keeps the spread source (`src : Option Stop`, `none` for a spread
  of the empty object `{}`) next to the overriding fields.
-/

namespace TrekMind

/-- ASCII part of the JS `\s` class (also used by `String.prototype.trim`). -/
def isWS (c : Char) : Bool :=
  c = ' ' || c = '\t' || c = '\n' || c = '\r' || c = '\x0b' || c = '\x0c'

/-- JS line terminators (the characters the regex `.` does not match). -/
def isLineTerm (c : Char) : Bool :=
  c = '\n' || c = '\r'

/-- ASCII part of the JS `\w` class, used for the `\b` boundary. -/
def isWordChar (c : Char) : Bool :=
  c.isAlpha || c.isDigit || c = '_'

/-- Case-insensitive character comparison (the `i` regex flag). -/
def lowEq (a b : Char) : Bool :=
  a.toLower = b.toLower

/-- Strip the keyword `kw` case-insensitively from the front of `l`. -/
def dropCI : List Char → List Char → Option (List Char)
  | [], l => some l
  | _ :: _, [] => none
  | k :: ks, c :: cs => if lowEq k c then dropCI ks cs else none

/-- The `\s+(.+)$` tail of the `to` / `at` regexes, applied to the text
after the keyword: at least one whitespace character, then a nonempty
line-terminator-free capture running to the end of the string.  Greedy
`\s+` with backtracking: when the whole remainder is whitespace the last
whitespace character itself is captured (if it is not a line terminator). -/
def restCapture (r : List Char) : Option (List Char) :=
  let w := r.takeWhile isWS
  let t := r.dropWhile isWS
  if w.isEmpty then none
  else if !t.isEmpty then (if t.any isLineTerm then none else some t)
  else
    match w.getLast? with
    | some c => if 2 ≤ w.length && !isLineTerm c then some [c] else none
    | none => none

/-- Leftmost match of `\bKW\s+(.+)$` (case-insensitive): scan the string
left to right; at the first position that is a word boundary, starts with
the keyword and admits the `\s+(.+)$` tail, return the capture.
`prevWord` records whether the preceding character is a word character. -/
def scanKw (kw : List Char) : List Char → Bool → Option (List Char)
  | [], _ => none
  | c :: cs, prevWord =>
    let here : Option (List Char) :=
      if prevWord then none
      else
        match dropCI kw (c :: cs) with
        | some r => restCapture r
        | none => none
    match here with
    | some cap => some cap
    | none => scanKw kw cs (isWordChar c)

/-- One attempt of the parenthetical pattern `\s*\(.*?\)` anchored at the
current position: optional whitespace, an opening parenthesis, then the
lazy `.*?` runs to the nearest closing parenthesis without crossing a line
terminator.  Returns the remainder after the match. -/
def chopToClose : List Char → Option (List Char)
  | [] => none
  | c :: cs => if c = ')' then some cs else if isLineTerm c then none else chopToClose cs

/-- See `chopToClose`: the whole `\s*\(.*?\)` attempt at one position. -/
def parenChop (l : List Char) : Option (List Char) :=
  match l.dropWhile isWS with
  | '(' :: r2 => chopToClose r2
  | _ => none

/-- Fuelled scan for the global replace `replace(/\s*\(.*?\)/g, "")`:
delete every leftmost non-overlapping match.  Each step either consumes a
whole match or keeps one character, so `l.length` steps of fuel always
suffice (`stripParens` supplies them). -/
def stripParensGo : Nat → List Char → List Char
  | 0, l => l
  | _ + 1, [] => []
  | fuel + 1, c :: cs =>
    match parenChop (c :: cs) with
    | some rest => stripParensGo fuel rest
    | none => c :: stripParensGo fuel cs

/-- `replace(/\s*\(.*?\)/g, "")` from `parseLocationName`. -/
def stripParens (l : List Char) : List Char :=
  stripParensGo l.length l

/-- `String.prototype.trim`. -/
def trimChars (l : List Char) : List Char :=
  ((l.dropWhile isWS).reverse.dropWhile isWS).reverse

/-- `parseLocationName` from `RouteMap.tsx` (lines 30-37): empty input
returns the empty string; otherwise try `\bto\s+(.+)$`, then
`\bat\s+(.+)$`, else keep the whole string; the selected text has its
parentheticals removed and is trimmed. -/
def parseLocationName (raw : String) : String :=
  if raw = "" then ""
  else
    match scanKw "to".data raw.data false with
    | some cap => String.mk (trimChars (stripParens cap))
    | none =>
      match scanKw "at".data raw.data false with
      | some cap => String.mk (trimChars (stripParens cap))
      | none => String.mk (trimChars (stripParens raw.data))

/-- `^camp\s*\d*$` (case-insensitive). -/
def reCampNum (l : List Char) : Bool :=
  match dropCI "camp".data l with
  | some r => (r.dropWhile isWS).all Char.isDigit
  | none => false

/-- `^W1\s+W2$` (case-insensitive), for `^high\s+camp$`, `^base\s+camp$`
and `^rest\s+day$`. -/
def reTwoWords (w1 w2 : List Char) (l : List Char) : Bool :=
  match dropCI w1 l with
  | some r => !(r.takeWhile isWS).isEmpty && decide (dropCI w2 (r.dropWhile isWS) = some [])
  | none => false

/-- `^W$` (case-insensitive), for `^abc$`, `^pass$` and `^summit$`. -/
def reExact (w : List Char) (l : List Char) : Bool :=
  decide (dropCI w l = some [])

/-- `^col\s` (case-insensitive): the word col followed by one whitespace
character, with arbitrary text after it. -/
def reColSp (l : List Char) : Bool :=
  match dropCI "col".data l with
  | some (c :: _) => isWS c
  | _ => false

/-- `^checkpoint` (case-insensitive): an unanchored tail, so any string
beginning with the word checkpoint matches. -/
def reCheckpointAny (l : List Char) : Bool :=
  (dropCI "checkpoint".data l).isSome

/-- The `VAGUE` pattern array of `RouteMap.tsx` (line 40), in source
order. -/
def VAGUE : List (List Char → Bool) :=
  [reCampNum,
   reTwoWords "high".data "camp".data,
   reTwoWords "base".data "camp".data,
   reExact "abc".data,
   reExact "pass".data,
   reExact "summit".data,
   reColSp,
   reCheckpointAny,
   reTwoWords "rest".data "day".data]

/-- `isVague` from `RouteMap.tsx` (line 41): some pattern matches the
trimmed name. -/
def isVague (n : String) : Bool :=
  VAGUE.any fun p => p (trimChars n.data)

/-- A coordinate pair as stored by the code from the service response:
`[lng, lat]` (Mapbox order). -/
abbrev Coord := ℚ × ℚ

/-- The abstracted haversine `distanceKm (lat1 lng1 lat2 lng2)`: the source
computes it with `Math.sin` / `Math.cos` / `Math.atan2` / `Math.sqrt` over
IEEE doubles, which have no executable shallow embedding, so the resolver
is parametrised over it. -/
abbrev Dist := ℚ → ℚ → ℚ → ℚ → ℚ

/-- Outcome of one `fetch` of the geocoding URL: a thrown exception, a
non-ok response, an ok response without `features[0].geometry.coordinates`,
or an ok response carrying a coordinate pair. -/
inductive FetchResult where
  | err : FetchResult
  | notOk : FetchResult
  | okNoCoords : FetchResult
  | okCoords (lng lat : ℚ) : FetchResult
deriving Repr, DecidableEq

/-- The geocoding service as an environment: the request URL is determined
by the place name, the country, and the trek longitude and latitude (the
token, bbox and proximity are functions of these). -/
abbrev Env := String → String → ℚ → ℚ → FetchResult

/-- Kernel-reducible floor on ℚ (`Int.fdiv` is floor division). -/
def ratFloor (q : ℚ) : ℤ :=
  Int.fdiv q.num q.den

/-- `Math.round`: round to nearest, ties toward positive infinity. -/
def jsRound (q : ℚ) : ℤ :=
  ratFloor (q + 1 / 2)

/-- `toFixed(2)` bucket of an anchor component, as used in the cache key:
the value rounded to hundredths, kept as the integer number of hundredths
(the tie-breaking direction of `toFixed` never matters here). -/
def bucket2 (q : ℚ) : ℤ :=
  jsRound (q * 100)

/-- The cache key `` `${name}|${trekLat.toFixed(2)},${trekLng.toFixed(2)}` ``,
modelled as the (injective) tuple of its three determinants. -/
abbrev CacheKey := String × ℤ × ℤ

/-- See `CacheKey`. -/
def cacheKey (name : String) (trekLat trekLng : ℚ) : CacheKey :=
  (name, bucket2 trekLat, bucket2 trekLng)

/-- The module-level session cache `Map<string, [number, number] | null>`,
threaded explicitly as an association list (most recent write first). -/
abbrev Cache := List (CacheKey × Option Coord)

/-- `cache.get` combined with `cache.has`: `none` when the key is absent,
`some v` when the key holds `v` (which is itself `none` for a cached
failure). -/
def cget (c : Cache) (k : CacheKey) : Option (Option Coord) :=
  match c with
  | [] => none
  | (k2, v) :: rest => if k2 = k then some v else cget rest k

/-- `cache.set`, by shadowing prepend. -/
def cset (c : Cache) (k : CacheKey) (v : Option Coord) : Cache :=
  (k, v) :: c

/-- Result of one `geocode` call: the returned value, the cache afterwards,
the number of network fetches issued, and the distances logged by the
outlier-rejection warning (`Math.round(dist)`). -/
structure GeoResult where
  res : Option Coord
  cache : Cache
  calls : Nat
  warns : List ℤ
deriving Repr, DecidableEq

/-- `geocode` from `RouteMap.tsx` (lines 46-62).  On cache hit the cached
value is returned with no fetch.  On miss, one fetch is issued; a thrown
error, a non-ok response or a missing coordinate each cache and return
`null`; a coordinate whose distance from the anchor exceeds 1000 km is
rejected (warned with the rounded distance, cached and returned as
`null`); otherwise the coordinate is cached and returned. -/
def geocode (dist : Dist) (env : Env) (name country : String)
    (trekLng trekLat : ℚ) (cache : Cache) : GeoResult :=
  let key := cacheKey name trekLat trekLng
  match cget cache key with
  | some v => ⟨v, cache, 0, []⟩
  | none =>
    match env name country trekLng trekLat with
    | .err => ⟨none, cset cache key none, 1, []⟩
    | .notOk => ⟨none, cset cache key none, 1, []⟩
    | .okNoCoords => ⟨none, cset cache key none, 1, []⟩
    | .okCoords clng clat =>
      let d := dist trekLat trekLng clat clng
      if 1000 < d then ⟨none, cset cache key none, 1, [jsRound d]⟩
      else ⟨some (clng, clat), cset cache key (some (clng, clat)), 1, []⟩

/-- An itinerary stop as supplied to `RouteMap`: the four possible raw-text
fields (the empty string standing for an absent or empty field, which is
falsy under `||`), the two possible coordinate field spellings, and an
opaque metadata payload carried by object spread. -/
structure Stop where
  day : Int
  location : String
  route : String
  overnightStay : String
  place : String
  lat : Option ℚ
  latitude : Option ℚ
  lng : Option ℚ
  longitude : Option ℚ
  meta : Int
deriving Repr, DecidableEq

/-- The trek anchor fields used by the resolution pipeline. -/
structure Trek where
  country : String
  latitude : ℚ
  longitude : ℚ
deriving Repr, DecidableEq

/-- A resolved output stop: the object spread source (`none` when the
spread source was the empty object `{}`), the coordinate fields, and the
three marker fields written by the pipeline (`_geocodedName`, `_anchored`,
`_interpolated`; an absent marker is falsy, modelled as `none` / `false`). -/
structure OutStop where
  src : Option Stop
  lng : ℚ
  lat : ℚ
  geocodedName : Option String
  anchored : Bool
  interpolated : Bool
deriving Repr, DecidableEq

/-- The spec-level resolution status of an output stop, derived from the
markers the code attaches: `_interpolated` ⇒ Interpolated, `_anchored` ⇒
Anchored, `_geocodedName` ⇒ Geocoded, otherwise Provided. -/
inductive Status where
  | Provided : Status
  | Geocoded : Status
  | Anchored : Status
  | Interpolated : Status
deriving Repr, DecidableEq

/-- See `Status`. -/
def OutStop.status (o : OutStop) : Status :=
  if o.interpolated then .Interpolated
  else if o.anchored then .Anchored
  else if o.geocodedName.isSome then .Geocoded
  else .Provided

/-- `stop.location || stop.route || stop.overnightStay || stop.place || ""`. -/
def rawNameOf (s : Stop) : String :=
  if s.location ≠ "" then s.location
  else if s.route ≠ "" then s.route
  else if s.overnightStay ≠ "" then s.overnightStay
  else s.place

/-- `s.lat ?? s.latitude`. -/
def coalLat (s : Stop) : Option ℚ :=
  s.lat.orElse fun _ => s.latitude

/-- `s.lng ?? s.longitude`. -/
def coalLng (s : Stop) : Option ℚ :=
  s.lng.orElse fun _ => s.longitude

/-- `{...stop, lng: trek.longitude, lat: trek.latitude, _anchored: true}`. -/
def anchorOut (s : Stop) (trek : Trek) : OutStop :=
  ⟨some s, trek.longitude, trek.latitude, none, true, false⟩

/-- Result of one per-stop task of the `Promise.all` fan-out. -/
structure StopResult where
  res : Option OutStop
  cache : Cache
  calls : Nat
  warns : List ℤ
deriving Repr, DecidableEq

/-- One per-stop task of `RouteMap.tsx` (lines 127-141): endpoints fall
back to the anchor object on every failure path (missing raw name, empty
parse, vague name, failed geocode); interior stops fall back to `null`; a
successful geocode yields the stop spread with the returned coordinate and
`_geocodedName`. -/
def resolveStop (dist : Dist) (env : Env) (trek : Trek) (n : Nat)
    (idx : Nat) (s : Stop) (cache : Cache) : StopResult :=
  let isEnd := idx = 0 ∨ idx = n - 1
  let anchor := anchorOut s trek
  let rawName := rawNameOf s
  if rawName = "" then ⟨if isEnd then some anchor else none, cache, 0, []⟩
  else
    let cleanName := parseLocationName rawName
    if cleanName = "" ∨ isVague cleanName then
      ⟨if isEnd then some anchor else none, cache, 0, []⟩
    else
      let g := geocode dist env cleanName trek.country trek.longitude trek.latitude cache
      match g.res with
      | none => ⟨if isEnd then some anchor else none, g.cache, g.calls, g.warns⟩
      | some (clng, clat) =>
        ⟨some ⟨some s, clng, clat, some cleanName, false, false⟩, g.cache, g.calls, g.warns⟩

/-- Result of the whole `Promise.all` batch. -/
structure BatchResult where
  results : List (Option OutStop)
  cache : Cache
  calls : Nat
  warns : List ℤ
deriving Repr, DecidableEq

/-- The `Promise.all(stops.map(...))` fan-out, modelled by its sequential
left-to-right interleaving; `idx` is the index of the first stop of the
remaining list and `n` the total stop count. -/
def runStops (dist : Dist) (env : Env) (trek : Trek) (n : Nat) :
    Nat → List Stop → Cache → BatchResult
  | _, [], c => ⟨[], c, 0, []⟩
  | idx, s :: rest, c =>
    let r := resolveStop dist env trek n idx s c
    let b := runStops dist env trek n (idx + 1) rest r.cache
    ⟨r.res :: b.results, b.cache, r.calls + b.calls, r.warns ++ b.warns⟩

/-- `results.slice(i + 1).find(Boolean)` projected to its coordinate. -/
def firstCoords : List (Option OutStop) → Option (ℚ × ℚ)
  | [] => none
  | some s :: _ => some (s.lng, s.lat)
  | none :: rest => firstCoords rest

/-- The recursion of `interpolateMissing`: `last` is the mutable
`lastKnown` variable, seeded with the trek centre and updated only by
resolved (non-null) entries.  A null entry is replaced by the midpoint of
`lastKnown` and the next resolved coordinate (or `lastKnown` again when no
later entry resolved); the spread source of the built object is
`results[i] ?? {}`, which in this branch is always the empty object. -/
def interpGo : List (Option OutStop) → ℚ × ℚ → List OutStop
  | [], _ => []
  | some s :: rest, _ => s :: interpGo rest (s.lng, s.lat)
  | none :: rest, last =>
    let nextC := match firstCoords rest with
      | some c => c
      | none => last
    let lng := last.1 + (nextC.1 - last.1) * (1 / 2)
    let lat := last.2 + (nextC.2 - last.2) * (1 / 2)
    ⟨none, lng, lat, none, false, true⟩ :: interpGo rest last

/-- `interpolateMissing` from `RouteMap.tsx` (lines 65-75). -/
def interpolateMissing (results : List (Option OutStop)) (trekLng trekLat : ℚ) :
    List OutStop :=
  interpGo results (trekLng, trekLat)

/-- `stops.every(s => typeof (s.lat ?? s.latitude) === "number" && ...)`. -/
def allHaveCoords (stops : List Stop) : Bool :=
  stops.all fun s => (coalLat s).isSome && (coalLng s).isSome

/-- The resolved route handed to the renderer, with the resources the
claims audit: the network call count and the rejection warnings. -/
structure RouteResult where
  stops : List OutStop
  cache : Cache
  calls : Nat
  warns : List ℤ
deriving Repr, DecidableEq

/-- `{...s, lat: s.lat ?? s.latitude, lng: s.lng ?? s.longitude}` of the
short-circuit branch. -/
def providedOut (s : Stop) : OutStop :=
  ⟨some s, (coalLng s).getD 0, (coalLat s).getD 0, none, false, false⟩

/-- The geocoding effect of `RouteMap.tsx` (lines 97-148), for a present
trek and token: an empty stop list yields an empty route; if every stop
already carries numeric coordinates the pipeline short-circuits to the
identity route with zero fetches; otherwise the per-stop fan-out runs and
the null results are interpolated.  (`filled.filter(Boolean)` of line 144
keeps every entry, since `interpolateMissing` returns only objects, and is
dropped.) -/
def resolveRoute (dist : Dist) (env : Env) (stops : List Stop) (trek : Trek)
    (cache : Cache) : RouteResult :=
  if stops = [] then ⟨[], cache, 0, []⟩
  else if allHaveCoords stops then
    ⟨stops.map providedOut, cache, 0, []⟩
  else
    let b := runStops dist env trek stops.length 0 stops cache
    ⟨interpolateMissing b.results trek.longitude trek.latitude, b.cache, b.calls, b.warns⟩

/-! Derived notions used by the statements. -/

/-- The `lastKnown` value reached after a prefix of the results list:
coordinates of the last resolved entry, or the seed (the trek centre)
when no entry of the prefix resolved. -/
def lastKnownAt (last : ℚ × ℚ) (l : List (Option OutStop)) : ℚ × ℚ :=
  l.foldl (fun acc o => match o with | some s => (s.lng, s.lat) | none => acc) last

/-- The stop object built for an unresolved entry: the `t = 0.5` linear
midpoint of `a` and `b`, spread from the empty object, marked
`_interpolated`. -/
def midpointStop (a b : ℚ × ℚ) : OutStop :=
  ⟨none, a.1 + (b.1 - a.1) * (1 / 2), a.2 + (b.2 - a.2) * (1 / 2), none, false, true⟩

/-- The state of the shared cache when the per-stop task of index `i`
runs, in the sequential interleaving: the cache left by the first `i`
tasks. -/
def cacheBefore (dist : Dist) (env : Env) (trek : Trek) (stops : List Stop)
    (cache : Cache) (i : Nat) : Cache :=
  (runStops dist env trek stops.length 0 (stops.take i) cache).cache

/-- The fallback condition of a per-stop task: the raw name is missing,
parses to nothing, is classified vague, or fails to geocode (against the
cache state the task sees). -/
def resolutionFails (dist : Dist) (env : Env) (trek : Trek) (s : Stop)
    (c : Cache) : Prop :=
  rawNameOf s = "" ∨ parseLocationName (rawNameOf s) = "" ∨
    isVague (parseLocationName (rawNameOf s)) = true ∨
    (geocode dist env (parseLocationName (rawNameOf s)) trek.country
        trek.longitude trek.latitude c).res = none

/-- `c2` keeps every binding of `c1` (the cache only grows, and, being
write-once, existing bindings never change). -/
def Extends (c2 c1 : Cache) : Prop :=
  ∀ k v, cget c1 k = some v → cget c2 k = some v

/-- A cache is sound for a trek when every successful entry under that
trek's anchor bucket lies within the 1000 km radius.  The empty cache is
sound, and `geocode` preserves soundness. -/
def CacheOK (dist : Dist) (trek : Trek) (c : Cache) : Prop :=
  ∀ name v, cget c (name, bucket2 trek.latitude, bucket2 trek.longitude) = some (some v) →
    dist trek.latitude trek.longitude v.2 v.1 ≤ 1000

/-- A cache that records only failures. -/
def NullCache (c : Cache) : Prop :=
  ∀ k v, cget c k = some v → v = none

/-- The environment in which every fetch throws (total network outage). -/
def envErr : Env := fun _ _ _ _ => .err

/-! Spec-side definitions for the refinement claims. -/

/-- Modelled from the spec of the parser as amended: try the word to
(case-insensitive, at a word boundary) followed by whitespace and further
single-line text, taking the text after the first such occurrence; else
the word at likewise; else the whole string; the selected text has its
parenthetical annotations removed and is trimmed (therefore empty and
whitespace-only inputs yield the empty string). -/
def parseLocationNameSpec (raw : String) : String :=
  match scanKw "to".data raw.data false with
  | some rest => String.mk (trimChars (stripParens rest))
  | none =>
    match scanKw "at".data raw.data false with
    | some rest => String.mk (trimChars (stripParens rest))
    | none => String.mk (trimChars (stripParens raw.data))

/-- The word checkpoint followed by optional whitespace and an optional
number, anchored at both ends — the claim text reading of the checkpoint
pattern. -/
def reCheckpointNum (l : List Char) : Bool :=
  match dropCI "checkpoint".data l with
  | some r => (r.dropWhile isWS).all Char.isDigit
  | none => false

/-- Modelled from the claim text of the vague-name classifier, read
literally: camp plus optional number, high camp, base camp, ABC, pass and
named passes (col followed by whitespace), summit, checkpoint plus
optional number, rest day — each matched exactly (case-insensitively)
against the trimmed name. -/
def isVagueClaimed (n : String) : Bool :=
  let t := trimChars n.data
  reCampNum t || reTwoWords "high".data "camp".data t ||
    reTwoWords "base".data "camp".data t || reExact "abc".data t ||
    (reExact "pass".data t || reColSp t) || reExact "summit".data t ||
    reCheckpointNum t || reTwoWords "rest".data "day".data t

/-- Modelled from the claim text as amended: as `isVagueClaimed`, except
that checkpoint matches as a bare prefix — any name beginning with the
word checkpoint classifies as vague, not only checkpoint plus a number. -/
def isVagueAmended (n : String) : Bool :=
  let t := trimChars n.data
  reCampNum t || reTwoWords "high".data "camp".data t ||
    reTwoWords "base".data "camp".data t || reExact "abc".data t ||
    (reExact "pass".data t || reColSp t) || reExact "summit".data t ||
    reCheckpointAny t || reTwoWords "rest".data "day".data t

/-! Concrete scenario inputs used by the counterexamples and witnesses. -/

/-- Absolute value on ℚ (kernel-reducible helper for the concrete
distance stand-ins below). -/
def rAbs (q : ℚ) : ℚ :=
  if q < 0 then -q else q

/-- Minimum on ℚ (kernel-reducible). -/
def rMin (a b : ℚ) : ℚ :=
  if a ≤ b then a else b

/-- A concrete stand-in for the haversine distance: 111 km per degree of
arc along a meridian or the equator, with longitude wraparound.  At the
equatorial points used by the scenarios below it agrees with the true
haversine to well under one percent (111.19 km per degree). -/
def distArc : Dist := fun lat1 lng1 lat2 lng2 =>
  111 * (rAbs (lat2 - lat1) + rMin (rAbs (lng2 - lng1)) (360 - rAbs (lng2 - lng1)))

/-- An input stop with a raw text in `location` and no coordinates. -/
def namedStop (d : Int) (loc : String) (m : Int) : Stop :=
  ⟨d, loc, "", "", "", none, none, none, none, m⟩

/-- A trek anchored on the equator at the antimeridian. -/
def trekPacific : Trek := ⟨"Nepal", 0, 180⟩

/-- A service whose candidate for the middle stop lies on the opposite
side of the globe (and is therefore rejected by the distance check), while
the two endpoint names resolve close to the anchor, one on each side of
the antimeridian. -/
def envPacific : Env := fun name _ _ _ =>
  if name = "Lukla" then .okCoords 179 0
  else if name = "Gorakshep" then .okCoords 0 0
  else if name = "Dole" then .okCoords (-179) 0
  else .err

/-- Three stops for the outlier-rejection scenario. -/
def stopsPacific : List Stop :=
  [namedStop 1 "Lukla" 10, namedStop 2 "Gorakshep" 20, namedStop 3 "Dole" 30]

/-- A trek anchored at the origin for the metadata pass-through scenario. -/
def trekOrigin : Trek := ⟨"Nepal", 0, 0⟩

/-- A service resolving the two endpoint names and failing everything
else. -/
def envOrigin : Env := fun name _ _ _ =>
  if name = "Lukla" then .okCoords 1 1
  else if name = "Dole" then .okCoords 2 2
  else .err

/-- Three stops whose middle entry is classified vague (never geocoded)
and therefore interpolated. -/
def stopsOrigin : List Stop :=
  [namedStop 1 "Lukla" 10, namedStop 2 "Camp 2" 20, namedStop 3 "Dole" 30]

/-- A resolved entry at longitude 2, latitude 2 (for the interpolation
counterexample). -/
def resolvedAt22 : OutStop := ⟨none, 2, 2, none, false, false⟩

/-- A stop that already carries coordinates (for the short-circuit
witness). -/
def coordStop : Stop := ⟨1, "X", "", "", "", some 5, none, some 6, none, 7⟩

/-- The output entry produced for the first stop of `stopsPacific`. -/
def luklaOut : OutStop :=
  ⟨some (namedStop 1 "Lukla" 10), 179, 0, some "Lukla", false, false⟩

/-! Structural lemmas about the interpolation pass. -/

theorem lastKnownAt_nil (last : ℚ × ℚ) : lastKnownAt last [] = last := rfl

theorem lastKnownAt_cons_some (last : ℚ × ℚ) (s : OutStop) (t : List (Option OutStop)) :
    lastKnownAt last (some s :: t) = lastKnownAt (s.lng, s.lat) t := rfl

theorem lastKnownAt_cons_none (last : ℚ × ℚ) (t : List (Option OutStop)) :
    lastKnownAt last (none :: t) = lastKnownAt last t := rfl

theorem interpGo_length (l : List (Option OutStop)) :
    ∀ last, (interpGo l last).length = l.length := by
  induction l with
  | nil => intro last; rfl
  | cons x rest ih => intro last; cases x <;> simp [interpGo, ih]

theorem interpolateMissing_length (results : List (Option OutStop)) (trekLng trekLat : ℚ) :
    (interpolateMissing results trekLng trekLat).length = results.length :=
  interpGo_length results (trekLng, trekLat)

theorem interpGo_get?_some (l : List (Option OutStop)) :
    ∀ (last : ℚ × ℚ) (i : Nat) (s : OutStop), l.get? i = some (some s) →
      (interpGo l last).get? i = some s := by
  induction l with
  | nil => intro last i s h; simp at h
  | cons x rest ih =>
    intro last i s h
    cases i with
    | zero =>
      simp only [List.get?_cons_zero, Option.some.injEq] at h
      subst h
      rfl
    | succ i =>
      simp only [List.get?_cons_succ] at h
      cases x with
      | some y => simpa [interpGo] using ih (y.lng, y.lat) i s h
      | none => simpa [interpGo] using ih last i s h

theorem interpGo_get?_none (l : List (Option OutStop)) :
    ∀ (last : ℚ × ℚ) (i : Nat), l.get? i = some none →
      (interpGo l last).get? i =
        some (midpointStop (lastKnownAt last (l.take i))
          ((firstCoords (l.drop (i + 1))).getD (lastKnownAt last (l.take i)))) := by
  induction l with
  | nil => intro last i h; simp at h
  | cons x rest ih =>
    intro last i h
    cases i with
    | zero =>
      simp only [List.get?_cons_zero, Option.some.injEq] at h
      subst h
      simp only [interpGo, List.get?_cons_zero, List.take_zero, List.drop_succ_cons,
        List.drop_zero, lastKnownAt_nil]
      cases hf : firstCoords rest <;> simp [midpointStop, Option.getD, hf]
    | succ i =>
      simp only [List.get?_cons_succ] at h
      cases x with
      | some y =>
        simpa [interpGo, List.take_succ_cons, List.drop_succ_cons,
          lastKnownAt_cons_some] using ih (y.lng, y.lat) i h
      | none =>
        simpa [interpGo, List.take_succ_cons, List.drop_succ_cons,
          lastKnownAt_cons_none] using ih last i h

theorem interpGo_mem (l : List (Option OutStop)) :
    ∀ (last : ℚ × ℚ) (o : OutStop), o ∈ interpGo l last →
      some o ∈ l ∨ (o.src = none ∧ o.geocodedName = none ∧ o.anchored = false ∧
        o.interpolated = true) := by
  induction l with
  | nil => intro last o h; simp [interpGo] at h
  | cons x rest ih =>
    intro last o h
    cases x with
    | some y =>
      simp only [interpGo, List.mem_cons] at h
      rcases h with h | h
      · subst h; exact Or.inl (List.mem_cons_self _ _)
      · rcases ih (y.lng, y.lat) o h with h2 | h2
        · exact Or.inl (List.mem_cons_of_mem _ h2)
        · exact Or.inr h2
    | none =>
      simp only [interpGo, List.mem_cons] at h
      rcases h with h | h
      · subst h; exact Or.inr ⟨rfl, rfl, rfl, rfl⟩
      · rcases ih last o h with h2 | h2
        · exact Or.inl (List.mem_cons_of_mem _ h2)
        · exact Or.inr h2

/-- Claim C1, counterexample.  Results `[resolved at (2,2), null, null]`
with anchor `(0,0)`: the interior stop at index 1 has no later resolved
neighbour, so the claim assigns it the midpoint of the preceding resolved
coordinate `(2,2)` and the anchor `(0,0)` — the stop `midpointStop (2,2)
(0,0)` at `(1,1)`.  The code instead reuses `lastKnown` as the missing
following coordinate and produces `midpointStop (2,2) (2,2)` at `(2,2)`. -/
theorem C1_counterexample :
    (interpolateMissing [some resolvedAt22, none, none] 0 0).get? 1 =
        some (midpointStop (2, 2) (2, 2)) ∧
      (interpolateMissing [some resolvedAt22, none, none] 0 0).get? 1 ≠
        some (midpointStop (2, 2) (0, 0)) := by
  constructor
  · with_unfolding_all rfl
  · with_unfolding_all decide

/-- Claim C1, amended: each interior stop whose name failed to resolve is
assigned the linear midpoint (t = 0.5) between the nearest preceding
resolved coordinate (the trek anchor if no earlier stop resolved) and the
nearest following resolved coordinate — except that when no later stop
resolved, the following coordinate falls back to that same preceding
value (not to the anchor), collapsing the stop onto it — and is marked
Interpolated. -/
theorem C1_interior_midpoint (results : List (Option OutStop)) (trekLng trekLat : ℚ)
    (i : Nat) (_hpos : 0 < i) (_hlt : i + 1 < results.length)
    (hnone : results.get? i = some none) :
    (interpolateMissing results trekLng trekLat).get? i =
        some (midpointStop (lastKnownAt (trekLng, trekLat) (results.take i))
          ((firstCoords (results.drop (i + 1))).getD
            (lastKnownAt (trekLng, trekLat) (results.take i)))) ∧
      ∀ o, (interpolateMissing results trekLng trekLat).get? i = some o →
        o.status = .Interpolated := by
  have h := interpGo_get?_none results (trekLng, trekLat) i hnone
  refine ⟨h, fun o ho => ?_⟩
  rw [interpolateMissing] at ho
  rw [h] at ho
  cases ho
  rfl

/-- Witness for `C1_interior_midpoint` at the concrete results
`[resolved at (2,2), null, resolved at (2,2)]`, index 1. -/
theorem C1_interior_midpoint_witness :
    (0 < 1 ∧ 1 + 1 < ([some resolvedAt22, none, some resolvedAt22] : List (Option OutStop)).length ∧
      ([some resolvedAt22, none, some resolvedAt22] : List (Option OutStop)).get? 1 = some none) ∧
    (interpolateMissing [some resolvedAt22, none, some resolvedAt22] 0 0).get? 1 =
      some (midpointStop (lastKnownAt (0, 0) ([some resolvedAt22, none, some resolvedAt22].take 1))
        ((firstCoords ([some resolvedAt22, none, some resolvedAt22].drop 2)).getD
          (lastKnownAt (0, 0) ([some resolvedAt22, none, some resolvedAt22].take 1)))) := by
  have h := C1_interior_midpoint [some resolvedAt22, none, some resolvedAt22] 0 0 1
    (by decide) (by decide) (by with_unfolding_all rfl)
  exact ⟨⟨by decide, by decide, by with_unfolding_all rfl⟩, h.1⟩

/-! Cache and resolver lemmas. -/

theorem cget_cset_self (c : Cache) (k : CacheKey) (v : Option Coord) :
    cget (cset c k v) k = some v := by
  simp [cget, cset]

theorem cget_cset_ne (c : Cache) (k k2 : CacheKey) (v : Option Coord) (h : k ≠ k2) :
    cget (cset c k v) k2 = cget c k2 := by
  simp [cget, cset, h]

theorem extends_refl (c : Cache) : Extends c c := fun _ _ h => h

theorem extends_trans {c3 c2 c1 : Cache} (h32 : Extends c3 c2) (h21 : Extends c2 c1) :
    Extends c3 c1 := fun k v h => h32 k v (h21 k v h)

theorem extends_cset (c : Cache) (k : CacheKey) (x : Option Coord)
    (h : cget c k = none) : Extends (cset c k x) c := by
  intro k2 v hv
  have hne : k ≠ k2 := by
    intro he
    rw [he, hv] at h
    cases h
  rw [cget_cset_ne c k k2 x hne]
  exact hv

theorem geocode_warm (dist : Dist) (env : Env) (name country : String)
    (trekLng trekLat : ℚ) (c : Cache) (v : Option Coord)
    (h : cget c (cacheKey name trekLat trekLng) = some v) :
    geocode dist env name country trekLng trekLat c = ⟨v, c, 0, []⟩ := by
  simp [geocode, h]

theorem geocode_post (dist : Dist) (env : Env) (name country : String)
    (trekLng trekLat : ℚ) (c : Cache) :
    cget (geocode dist env name country trekLng trekLat c).cache
        (cacheKey name trekLat trekLng) =
      some (geocode dist env name country trekLng trekLat c).res := by
  unfold geocode
  cases h : cget c (cacheKey name trekLat trekLng) with
  | some v => simp [h]
  | none =>
    cases he : env name country trekLng trekLat with
    | err => simp [h, he, cget_cset_self]
    | notOk => simp [h, he, cget_cset_self]
    | okNoCoords => simp [h, he, cget_cset_self]
    | okCoords clng clat =>
      by_cases hd : 1000 < dist trekLat trekLng clat clng <;>
        simp [h, he, hd, cget_cset_self]

theorem geocode_extends (dist : Dist) (env : Env) (name country : String)
    (trekLng trekLat : ℚ) (c : Cache) :
    Extends (geocode dist env name country trekLng trekLat c).cache c := by
  unfold geocode
  cases h : cget c (cacheKey name trekLat trekLng) with
  | some v => simp only [h]; exact extends_refl c
  | none =>
    cases he : env name country trekLng trekLat with
    | err => simp only [h, he]; exact extends_cset c _ _ h
    | notOk => simp only [h, he]; exact extends_cset c _ _ h
    | okNoCoords => simp only [h, he]; exact extends_cset c _ _ h
    | okCoords clng clat =>
      by_cases hd : 1000 < dist trekLat trekLng clat clng
      · simp only [h, he, if_pos hd]; exact extends_cset c _ _ h
      · simp only [h, he, if_neg hd]; exact extends_cset c _ _ h

theorem geocode_reject (dist : Dist) (env : Env) (name country : String)
    (trekLng trekLat : ℚ) (c : Cache) (clng clat : ℚ)
    (hmiss : cget c (cacheKey name trekLat trekLng) = none)
    (henv : env name country trekLng trekLat = .okCoords clng clat)
    (hfar : 1000 < dist trekLat trekLng clat clng) :
    geocode dist env name country trekLng trekLat c =
      ⟨none, cset c (cacheKey name trekLat trekLng) none, 1,
        [jsRound (dist trekLat trekLng clat clng)]⟩ := by
  simp [geocode, hmiss, henv, hfar]

theorem cacheOK_cset_none {dist : Dist} {trek : Trek} {c : Cache}
    (h : CacheOK dist trek c) (k : CacheKey) : CacheOK dist trek (cset c k none) := by
  intro name v hv
  by_cases he : k = (name, bucket2 trek.latitude, bucket2 trek.longitude)
  · subst he
    rw [cget_cset_self] at hv
    cases hv
  · rw [cget_cset_ne c k _ none he] at hv
    exact h name v hv

theorem cacheOK_geocode {dist : Dist} {trek : Trek} {c : Cache} (env : Env)
    (name country : String) (h : CacheOK dist trek c) :
    CacheOK dist trek
      (geocode dist env name country trek.longitude trek.latitude c).cache := by
  unfold geocode
  cases hm : cget c (cacheKey name trek.latitude trek.longitude) with
  | some v => simp only [hm]; exact h
  | none =>
    cases he : env name country trek.longitude trek.latitude with
    | err => simp only [hm, he]; exact cacheOK_cset_none h _
    | notOk => simp only [hm, he]; exact cacheOK_cset_none h _
    | okNoCoords => simp only [hm, he]; exact cacheOK_cset_none h _
    | okCoords clng clat =>
      by_cases hd : 1000 < dist trek.latitude trek.longitude clat clng
      · simp only [hm, he, if_pos hd]; exact cacheOK_cset_none h _
      · simp only [hm, he, if_neg hd]
        intro name2 v hv
        by_cases hk : cacheKey name trek.latitude trek.longitude =
            (name2, bucket2 trek.latitude, bucket2 trek.longitude)
        · rw [hk, cget_cset_self] at hv
          have hv2 : (clng, clat) = v := by
            injection hv with hv1
            injection hv1
          rw [← hv2]
          exact le_of_not_lt hd
        · rw [cget_cset_ne c _ _ _ hk] at hv
          exact h name2 v hv

theorem geocode_res_dist {dist : Dist} {trek : Trek} {c : Cache} (env : Env)
    (name country : String) (h : CacheOK dist trek c) (v : Coord)
    (hres : (geocode dist env name country trek.longitude trek.latitude c).res = some v) :
    dist trek.latitude trek.longitude v.2 v.1 ≤ 1000 := by
  cases hm : cget c (cacheKey name trek.latitude trek.longitude) with
  | some w =>
    rw [geocode_warm dist env name country trek.longitude trek.latitude c w hm] at hres
    simp only [Option.some.injEq] at hres
    subst hres
    exact h name v hm
  | none =>
    simp only [geocode, hm] at hres
    cases he : env name country trek.longitude trek.latitude <;>
      simp only [he] at hres
    case okCoords clng clat =>
      by_cases hd : 1000 < dist trek.latitude trek.longitude clat clng
      · simp only [if_pos hd] at hres
        exact Option.noConfusion hres
      · simp only [if_neg hd, Option.some.injEq] at hres
        rw [← hres]
        exact le_of_not_lt hd
    all_goals exact Option.noConfusion hres

/-! Per-stop and batch lemmas. -/

theorem resolveStop_res_src (dist : Dist) (env : Env) (trek : Trek) (n idx : Nat)
    (s : Stop) (c : Cache) :
    ∀ o, (resolveStop dist env trek n idx s c).res = some o →
      o.src = some s ∧ o.interpolated = false ∧ o.anchored = (o.geocodedName = none) := by
  intro o h
  simp only [resolveStop] at h
  split at h
  · split at h
    · cases h; exact ⟨rfl, rfl, by simp [anchorOut]⟩
    · exact Option.noConfusion h
  · split at h
    · split at h
      · cases h; exact ⟨rfl, rfl, by simp [anchorOut]⟩
      · exact Option.noConfusion h
    · split at h
      · split at h
        · cases h; exact ⟨rfl, rfl, by simp [anchorOut]⟩
        · exact Option.noConfusion h
      · cases h; exact ⟨rfl, rfl, by simp⟩

theorem resolveStop_extends (dist : Dist) (env : Env) (trek : Trek) (n idx : Nat)
    (s : Stop) (c : Cache) :
    Extends (resolveStop dist env trek n idx s c).cache c := by
  simp only [resolveStop]
  split
  · exact extends_refl c
  · split
    · exact extends_refl c
    · split
      · exact geocode_extends dist env _ trek.country trek.longitude trek.latitude c
      · exact geocode_extends dist env _ trek.country trek.longitude trek.latitude c

theorem resolveStop_cacheOK {dist : Dist} {trek : Trek} {c : Cache} (env : Env)
    (n idx : Nat) (s : Stop) (h : CacheOK dist trek c) :
    CacheOK dist trek (resolveStop dist env trek n idx s c).cache := by
  simp only [resolveStop]
  split
  · exact h
  · split
    · exact h
    · split
      · exact cacheOK_geocode env _ trek.country h
      · exact cacheOK_geocode env _ trek.country h

theorem resolveStop_geocoded_dist {dist : Dist} {trek : Trek} {c : Cache} (env : Env)
    (n idx : Nat) (s : Stop) (h : CacheOK dist trek c) (o : OutStop)
    (hres : (resolveStop dist env trek n idx s c).res = some o)
    (hg : o.geocodedName.isSome = true) :
    dist trek.latitude trek.longitude o.lat o.lng ≤ 1000 := by
  simp only [resolveStop] at hres
  split at hres
  · split at hres
    · cases hres; simp [anchorOut, Option.isSome] at hg
    · exact Option.noConfusion hres
  · split at hres
    · split at hres
      · cases hres; simp [anchorOut, Option.isSome] at hg
      · exact Option.noConfusion hres
    · split at hres
      · split at hres
        · cases hres; simp [anchorOut, Option.isSome] at hg
        · exact Option.noConfusion hres
      · cases hres
        rename_i clng clat heq
        exact geocode_res_dist env _ trek.country h (clng, clat) heq

theorem resolveStop_endpoint_some (dist : Dist) (env : Env) (trek : Trek) (n idx : Nat)
    (s : Stop) (c : Cache) (hend : idx = 0 ∨ idx = n - 1) :
    ∃ o, (resolveStop dist env trek n idx s c).res = some o := by
  simp only [resolveStop, if_pos hend]
  split
  · exact ⟨anchorOut s trek, rfl⟩
  · split
    · exact ⟨anchorOut s trek, rfl⟩
    · split
      · exact ⟨anchorOut s trek, rfl⟩
      · exact ⟨_, rfl⟩

theorem resolveStop_fails_anchor (dist : Dist) (env : Env) (trek : Trek) (n idx : Nat)
    (s : Stop) (c : Cache) (hend : idx = 0 ∨ idx = n - 1)
    (hf : resolutionFails dist env trek s c) :
    (resolveStop dist env trek n idx s c).res = some (anchorOut s trek) := by
  simp only [resolveStop, if_pos hend]
  by_cases h1 : rawNameOf s = ""
  · simp [h1]
  · simp only [if_neg h1]
    by_cases h2 : parseLocationName (rawNameOf s) = "" ∨
        isVague (parseLocationName (rawNameOf s)) = true
    · simp [h2]
    · simp only [if_neg h2]
      rcases hf with hf | hf | hf | hf
      · exact absurd hf h1
      · exact absurd (Or.inl hf) h2
      · exact absurd (Or.inr hf) h2
      · rw [hf]

theorem resolveStop_fails_interior (dist : Dist) (env : Env) (trek : Trek) (n idx : Nat)
    (s : Stop) (c : Cache) (hend : ¬(idx = 0 ∨ idx = n - 1))
    (hf : resolutionFails dist env trek s c) :
    (resolveStop dist env trek n idx s c).res = none := by
  simp only [resolveStop, if_neg hend]
  by_cases h1 : rawNameOf s = ""
  · simp [h1]
  · simp only [if_neg h1]
    by_cases h2 : parseLocationName (rawNameOf s) = "" ∨
        isVague (parseLocationName (rawNameOf s)) = true
    · simp [h2]
    · simp only [if_neg h2]
      rcases hf with hf | hf | hf | hf
      · exact absurd hf h1
      · exact absurd (Or.inl hf) h2
      · exact absurd (Or.inr hf) h2
      · rw [hf]

theorem runStops_length (dist : Dist) (env : Env) (trek : Trek) (n : Nat)
    (stops : List Stop) : ∀ (idx : Nat) (c : Cache),
    (runStops dist env trek n idx stops c).results.length = stops.length := by
  induction stops with
  | nil => intro idx c; rfl
  | cons s rest ih => intro idx c; simp [runStops, ih]

theorem runStops_extends (dist : Dist) (env : Env) (trek : Trek) (n : Nat)
    (stops : List Stop) : ∀ (idx : Nat) (c : Cache),
    Extends (runStops dist env trek n idx stops c).cache c := by
  induction stops with
  | nil => intro idx c; exact extends_refl c
  | cons s rest ih =>
    intro idx c
    exact extends_trans (ih (idx + 1) _) (resolveStop_extends dist env trek n idx s c)

theorem runStops_cacheOK {dist : Dist} {trek : Trek} (env : Env) (n : Nat)
    (stops : List Stop) : ∀ (idx : Nat) (c : Cache), CacheOK dist trek c →
    CacheOK dist trek (runStops dist env trek n idx stops c).cache := by
  induction stops with
  | nil => intro idx c h; exact h
  | cons s rest ih =>
    intro idx c h
    exact ih (idx + 1) _ (resolveStop_cacheOK env n idx s h)

theorem runStops_get? (dist : Dist) (env : Env) (trek : Trek) (n : Nat)
    (stops : List Stop) : ∀ (idx : Nat) (c : Cache) (i : Nat) (s : Stop),
    stops.get? i = some s →
    (runStops dist env trek n idx stops c).results.get? i =
      some ((resolveStop dist env trek n (idx + i) s
        ((runStops dist env trek n idx (stops.take i) c).cache)).res) := by
  induction stops with
  | nil => intro idx c i s h; simp at h
  | cons x rest ih =>
    intro idx c i s h
    cases i with
    | zero =>
      simp only [List.get?_cons_zero, Option.some.injEq] at h
      subst h
      rfl
    | succ i =>
      simp only [List.get?_cons_succ] at h
      have hadd : idx + (i + 1) = idx + 1 + i := by omega
      simp only [runStops, List.get?_cons_succ, List.take_succ_cons, hadd]
      exact ih (idx + 1) _ i s h

theorem runStops_geocoded_dist {dist : Dist} {trek : Trek} (env : Env) (n : Nat)
    (stops : List Stop) : ∀ (idx : Nat) (c : Cache), CacheOK dist trek c →
    ∀ o : OutStop, some o ∈ (runStops dist env trek n idx stops c).results →
      o.geocodedName.isSome = true →
      dist trek.latitude trek.longitude o.lat o.lng ≤ 1000 := by
  induction stops with
  | nil => intro idx c _ o hmem; simp [runStops] at hmem
  | cons s rest ih =>
    intro idx c h o hmem hg
    simp only [runStops, List.mem_cons] at hmem
    rcases hmem with hmem | hmem
    · exact resolveStop_geocoded_dist env n idx s h o hmem.symm hg
    · exact ih (idx + 1) _ (resolveStop_cacheOK env n idx s h) o hmem hg

theorem nullCache_cset_none {c : Cache} (h : NullCache c) (k : CacheKey) :
    NullCache (cset c k none) := by
  intro k2 v hv
  by_cases he : k = k2
  · subst he
    rw [cget_cset_self] at hv
    cases hv
    rfl
  · rw [cget_cset_ne c k k2 none he] at hv
    exact h k2 v hv

theorem geocode_nullCache {c : Cache} (dist : Dist) (name country : String)
    (lng lat : ℚ) (h : NullCache c) :
    (geocode dist envErr name country lng lat c).res = none ∧
      NullCache (geocode dist envErr name country lng lat c).cache := by
  cases hm : cget c (cacheKey name lat lng) with
  | some v =>
    rw [geocode_warm dist envErr name country lng lat c v hm]
    exact ⟨h _ _ hm, h⟩
  | none =>
    simp only [geocode, hm, envErr]
    exact ⟨trivial, nullCache_cset_none h _⟩

theorem resolveStop_errEnv {c : Cache} (dist : Dist) (trek : Trek) (n idx : Nat)
    (s : Stop) (h : NullCache c) :
    ((resolveStop dist envErr trek n idx s c).res = none ∨
      (resolveStop dist envErr trek n idx s c).res = some (anchorOut s trek)) ∧
      NullCache (resolveStop dist envErr trek n idx s c).cache := by
  have hend : ∀ X : Option OutStop,
      (if idx = 0 ∨ idx = n - 1 then some (anchorOut s trek) else none) = X →
      X = none ∨ X = some (anchorOut s trek) := by
    intro X hX
    by_cases he : idx = 0 ∨ idx = n - 1
    · rw [if_pos he] at hX; exact Or.inr hX.symm
    · rw [if_neg he] at hX; exact Or.inl hX.symm
  have hg := geocode_nullCache dist (parseLocationName (rawNameOf s)) trek.country
    trek.longitude trek.latitude h
  by_cases h1 : rawNameOf s = ""
  · simp only [resolveStop, if_pos h1]
    exact ⟨hend _ rfl, h⟩
  · by_cases h2 : parseLocationName (rawNameOf s) = "" ∨
        isVague (parseLocationName (rawNameOf s)) = true
    · simp only [resolveStop, if_neg h1, if_pos h2]
      exact ⟨hend _ rfl, h⟩
    · simp only [resolveStop, if_neg h1, if_neg h2, hg.1]
      exact ⟨hend _ rfl, hg.2⟩

theorem runStops_errEnv {trek : Trek} (dist : Dist) (n : Nat)
    (stops : List Stop) : ∀ (idx : Nat) (c : Cache), NullCache c →
    ∀ o : OutStop, some o ∈ (runStops dist envErr trek n idx stops c).results →
      o.anchored = true ∧ o.interpolated = false := by
  induction stops with
  | nil => intro idx c _ o hmem; simp [runStops] at hmem
  | cons s rest ih =>
    intro idx c h o hmem
    simp only [runStops, List.mem_cons] at hmem
    rcases hmem with hmem | hmem
    · rcases (resolveStop_errEnv dist trek n idx s h).1 with hr | hr
      · rw [hr] at hmem; cases hmem
      · rw [hr] at hmem
        cases hmem
        exact ⟨rfl, rfl⟩
    · exact ih (idx + 1) _ (resolveStop_errEnv dist trek n idx s h).2 o hmem

theorem resolveStop_cache_eq (dist : Dist) (env : Env) (trek : Trek) (n idx : Nat)
    (s : Stop) (c : Cache) (h1 : ¬rawNameOf s = "")
    (h2 : ¬(parseLocationName (rawNameOf s) = "" ∨
      isVague (parseLocationName (rawNameOf s)) = true)) :
    (resolveStop dist env trek n idx s c).cache =
      (geocode dist env (parseLocationName (rawNameOf s)) trek.country
        trek.longitude trek.latitude c).cache := by
  simp only [resolveStop, if_neg h1, if_neg h2]
  cases hres : (geocode dist env (parseLocationName (rawNameOf s)) trek.country
      trek.longitude trek.latitude c).res with
  | none => simp [hres]
  | some v => cases v; simp [hres]

/-- A per-stop task re-run against a cache that contains everything its
first run left behind: the same result, no cache change, no fetch. -/
theorem resolveStop_warm (dist : Dist) (env env2 : Env) (trek : Trek) (n idx : Nat)
    (s : Stop) (c c2 : Cache)
    (hx : Extends c2 (resolveStop dist env trek n idx s c).cache) :
    resolveStop dist env2 trek n idx s c2 =
      ⟨(resolveStop dist env trek n idx s c).res, c2, 0, []⟩ := by
  by_cases h1 : rawNameOf s = ""
  · simp [resolveStop, h1]
  · by_cases h2 : parseLocationName (rawNameOf s) = "" ∨
        isVague (parseLocationName (rawNameOf s)) = true
    · simp [resolveStop, h1, h2]
    · have hpost := geocode_post dist env (parseLocationName (rawNameOf s)) trek.country
        trek.longitude trek.latitude c
      have hc2 : cget c2 (cacheKey (parseLocationName (rawNameOf s)) trek.latitude
          trek.longitude) =
          some (geocode dist env (parseLocationName (rawNameOf s)) trek.country
            trek.longitude trek.latitude c).res := by
        apply hx
        rw [resolveStop_cache_eq dist env trek n idx s c h1 h2]
        exact hpost
      have hwarm := geocode_warm dist env2 (parseLocationName (rawNameOf s)) trek.country
        trek.longitude trek.latitude c2 _ hc2
      simp only [resolveStop, if_neg h1, if_neg h2, hwarm]
      cases hres : (geocode dist env (parseLocationName (rawNameOf s)) trek.country
          trek.longitude trek.latitude c).res with
      | none => simp [hres]
      | some v => cases v; simp [hres]

/-- The whole batch re-run against the cache its first run produced (or
any larger one): identical results, no cache change, zero fetches, no
warnings — even under a different network environment. -/
theorem runStops_warm (dist : Dist) (env env2 : Env) (trek : Trek) (n : Nat)
    (stops : List Stop) : ∀ (idx : Nat) (c c2 : Cache),
    Extends c2 (runStops dist env trek n idx stops c).cache →
    runStops dist env2 trek n idx stops c2 =
      ⟨(runStops dist env trek n idx stops c).results, c2, 0, []⟩ := by
  induction stops with
  | nil => intro idx c c2 _; rfl
  | cons s rest ih =>
    intro idx c c2 hx
    have hx1 : Extends c2 (resolveStop dist env trek n idx s c).cache :=
      extends_trans hx (runStops_extends dist env trek n rest (idx + 1)
        (resolveStop dist env trek n idx s c).cache)
    have h1 := resolveStop_warm dist env env2 trek n idx s c c2 hx1
    have h2 := ih (idx + 1) (resolveStop dist env trek n idx s c).cache c2 hx
    simp only [runStops, h1, h2]
    simp

/-! Route-level lemmas. -/

theorem resolveRoute_length (dist : Dist) (env : Env) (stops : List Stop)
    (trek : Trek) (c : Cache) :
    (resolveRoute dist env stops trek c).stops.length = stops.length := by
  by_cases hnil : stops = []
  · subst hnil; rfl
  · by_cases hall : allHaveCoords stops = true
    · simp [resolveRoute, hnil, hall]
    · simp only [resolveRoute, if_neg hnil, hall, Bool.false_eq_true, if_false]
      rw [interpolateMissing_length, runStops_length]

theorem resolveRoute_mem (dist : Dist) (env : Env) (stops : List Stop)
    (trek : Trek) (c : Cache) (o : OutStop)
    (hmem : o ∈ (resolveRoute dist env stops trek c).stops) :
    (∃ s ∈ stops, o = providedOut s) ∨
      some o ∈ (runStops dist env trek stops.length 0 stops c).results ∨
      (o.src = none ∧ o.geocodedName = none ∧ o.anchored = false ∧
        o.interpolated = true) := by
  by_cases hnil : stops = []
  · subst hnil; simp [resolveRoute] at hmem
  · by_cases hall : allHaveCoords stops = true
    · simp only [resolveRoute, if_neg hnil, hall, if_true] at hmem
      rcases List.mem_map.mp hmem with ⟨s, hs, hso⟩
      exact Or.inl ⟨s, hs, hso.symm⟩
    · simp only [resolveRoute, if_neg hnil, hall, Bool.false_eq_true, if_false] at hmem
      rcases interpGo_mem _ _ _ hmem with h | h
      · exact Or.inr (Or.inl h)
      · exact Or.inr (Or.inr h)

/-- Claim C2, counterexample.  Anchor on the equator at longitude 180; the
endpoint names geocode to (179, 0) and (-179, 0), both about 111 km from
the anchor; the middle name returns the candidate (0, 0), which under the
(genuine) great-circle distance is about 20000 km away and is rejected —
as witnessed by the logged warning.  Interpolating the middle stop then
averages the longitudes 179 and -179 to 0, so the output places the middle
stop exactly at the rejected coordinate (0, 0): the rejected coordinate
does appear as a stop's resolved coordinate in the output. -/
theorem C2_counterexample :
    envPacific "Gorakshep" "Nepal" 180 0 = .okCoords 0 0 ∧
      1000 < distArc trekPacific.latitude trekPacific.longitude 0 0 ∧
      (resolveRoute distArc envPacific stopsPacific trekPacific []).warns =
        [jsRound (distArc trekPacific.latitude trekPacific.longitude 0 0)] ∧
      (resolveRoute distArc envPacific stopsPacific trekPacific []).stops.map
          (fun o => (o.lng, o.lat)) = [(179, 0), (0, 0), (-179, 0)] ∧
      (resolveRoute distArc envPacific stopsPacific trekPacific []).stops.map
          (fun o => o.status) = [.Geocoded, .Interpolated, .Geocoded] := by
  refine ⟨?_, ?_, ?_, ?_, ?_⟩
  · with_unfolding_all rfl
  · with_unfolding_all decide
  · with_unfolding_all rfl
  · with_unfolding_all rfl
  · with_unfolding_all rfl

/-- Claim C2, amended: a candidate farther than 1000 km from the anchor is
rejected — null is cached for the key, null is returned, and the rounded
distance is logged — and the rejected coordinate never appears as the
coordinate of any Geocoded stop: every geocoded output lies within the
radius (given a cache whose successful entries do, e.g. the empty one).
An Interpolated stop's midpoint may however coincide with the rejected
location, so the blanket "never appears as any stop's resolved
coordinate" does not hold (see the counterexample). -/
theorem C2_outlier_rejection :
    (∀ (dist : Dist) (env : Env) (name country : String) (trekLng trekLat : ℚ)
        (c : Cache) (clng clat : ℚ),
        cget c (cacheKey name trekLat trekLng) = none →
        env name country trekLng trekLat = .okCoords clng clat →
        1000 < dist trekLat trekLng clat clng →
        geocode dist env name country trekLng trekLat c =
          ⟨none, cset c (cacheKey name trekLat trekLng) none, 1,
            [jsRound (dist trekLat trekLng clat clng)]⟩) ∧
    ∀ (dist : Dist) (env : Env) (stops : List Stop) (trek : Trek) (c : Cache),
      CacheOK dist trek c →
      ∀ o ∈ (resolveRoute dist env stops trek c).stops, o.geocodedName.isSome = true →
        dist trek.latitude trek.longitude o.lat o.lng ≤ 1000 ∧
        ∀ clng clat : ℚ, 1000 < dist trek.latitude trek.longitude clat clng →
          (o.lng, o.lat) ≠ (clng, clat) := by
  constructor
  · intro dist env name country trekLng trekLat c clng clat hmiss henv hfar
    exact geocode_reject dist env name country trekLng trekLat c clng clat hmiss henv hfar
  · intro dist env stops trek c hok o hmem hg
    have hd : dist trek.latitude trek.longitude o.lat o.lng ≤ 1000 := by
      rcases resolveRoute_mem dist env stops trek c o hmem with ⟨s, _, hso⟩ | h | h
      · rw [hso] at hg; simp [providedOut, Option.isSome] at hg
      · exact runStops_geocoded_dist env stops.length stops 0 c hok o h hg
      · rw [h.2.1] at hg; simp [Option.isSome] at hg
    refine ⟨hd, fun clng clat hfar heq => ?_⟩
    have h1 : o.lng = clng := congrArg Prod.fst heq
    have h2 : o.lat = clat := congrArg Prod.snd heq
    rw [← h1, ← h2] at hfar
    exact absurd hfar (not_lt.mpr hd)

/-- Witness for `C2_outlier_rejection`: the rejection equation at a
concrete far candidate, and the radius bound at the concrete geocoded
first stop of the Pacific scenario. -/
theorem C2_outlier_rejection_witness :
    (cget ([] : Cache) (cacheKey "Gorakshep" 0 180) = none ∧
      envPacific "Gorakshep" "Nepal" 180 0 = .okCoords 0 0 ∧
      1000 < distArc 0 180 0 0 ∧
      geocode distArc envPacific "Gorakshep" "Nepal" 180 0 [] =
        ⟨none, cset [] (cacheKey "Gorakshep" 0 180) none, 1, [jsRound (distArc 0 180 0 0)]⟩) ∧
    (CacheOK distArc trekPacific [] ∧
      luklaOut ∈ (resolveRoute distArc envPacific stopsPacific trekPacific []).stops ∧
      luklaOut.geocodedName.isSome = true ∧
      distArc trekPacific.latitude trekPacific.longitude luklaOut.lat luklaOut.lng ≤ 1000) := by
  have hok : CacheOK distArc trekPacific [] := by
    intro name v hv
    exact Option.noConfusion hv
  have hmem : luklaOut ∈ (resolveRoute distArc envPacific stopsPacific trekPacific []).stops := by
    with_unfolding_all decide
  constructor
  · exact ⟨rfl, by with_unfolding_all rfl, by with_unfolding_all decide,
      C2_outlier_rejection.1 distArc envPacific "Gorakshep" "Nepal" 180 0 [] 0 0 rfl
        (by with_unfolding_all rfl) (by with_unfolding_all decide)⟩
  · exact ⟨hok, hmem, rfl,
      (C2_outlier_rejection.2 distArc envPacific stopsPacific trekPacific [] hok
        luklaOut hmem rfl).1⟩

/-- Claim C3: for a non-empty input, the first and last output stops are
never Interpolated; and (on the resolution path, i.e. when not every stop
already carries coordinates) whenever the first or last stop's name is
missing, unparseable, vague, or fails to geocode, that stop becomes the
trek anchor's own coordinate with status Anchored.  When every stop
already carries coordinates the pipeline short-circuits (claim C5) and no
name-based fallback is involved. -/
theorem C3_endpoints (dist : Dist) (env : Env) (stops : List Stop) (trek : Trek)
    (cache : Cache) (hne : stops ≠ []) :
    (resolveRoute dist env stops trek cache).stops.length = stops.length ∧
    (∀ o, (resolveRoute dist env stops trek cache).stops.get? 0 = some o →
      o.interpolated = false) ∧
    (∀ o, (resolveRoute dist env stops trek cache).stops.get? (stops.length - 1) = some o →
      o.interpolated = false) ∧
    (allHaveCoords stops = false →
      (∀ s, stops.get? 0 = some s → resolutionFails dist env trek s cache →
        (resolveRoute dist env stops trek cache).stops.get? 0 =
            some (anchorOut s trek) ∧
          (anchorOut s trek).status = .Anchored) ∧
      (∀ s, stops.get? (stops.length - 1) = some s →
        resolutionFails dist env trek s
          (cacheBefore dist env trek stops cache (stops.length - 1)) →
        (resolveRoute dist env stops trek cache).stops.get? (stops.length - 1) =
            some (anchorOut s trek) ∧
          (anchorOut s trek).status = .Anchored)) := by
  refine ⟨resolveRoute_length dist env stops trek cache, ?_, ?_, ?_⟩
  case _ =>
    intro o ho
    by_cases hall : allHaveCoords stops = true
    · simp only [resolveRoute, if_neg hne, hall, if_true, List.get?_map] at ho
      cases hs : stops.get? 0 with
      | none => rw [hs] at ho; cases ho
      | some s =>
        rw [hs] at ho
        cases ho
        rfl
    · simp only [resolveRoute, if_neg hne, hall, Bool.false_eq_true, if_false, interpolateMissing] at ho
      cases hs : stops.get? 0 with
      | none =>
        rw [List.get?_eq_none] at hs
        cases stops with
        | nil => exact absurd rfl hne
        | cons a l => simp at hs
      | some s =>
        have hr := runStops_get? dist env trek stops.length stops 0 cache 0 s hs
        rcases resolveStop_endpoint_some dist env trek stops.length 0 s
            ((runStops dist env trek stops.length 0 (stops.take 0) cache).cache)
            (Or.inl rfl) with ⟨o2, ho2⟩
        rw [Nat.add_zero] at hr
        rw [ho2] at hr
        rw [interpGo_get?_some _ _ _ _ hr] at ho
        cases ho
        exact (resolveStop_res_src dist env trek stops.length 0 s _ o ho2).2.1
  case _ =>
    intro o ho
    by_cases hall : allHaveCoords stops = true
    · simp only [resolveRoute, if_neg hne, hall, if_true, List.get?_map] at ho
      cases hs : stops.get? (stops.length - 1) with
      | none => rw [hs] at ho; cases ho
      | some s =>
        rw [hs] at ho
        cases ho
        rfl
    · simp only [resolveRoute, if_neg hne, hall, Bool.false_eq_true, if_false, interpolateMissing] at ho
      cases hs : stops.get? (stops.length - 1) with
      | none =>
        rw [List.get?_eq_none] at hs
        have hlt : stops.length - 1 < stops.length := by
          cases stops with
          | nil => exact absurd rfl hne
          | cons a l => simp
        omega
      | some s =>
        have hr := runStops_get? dist env trek stops.length stops 0 cache
          (stops.length - 1) s hs
        rcases resolveStop_endpoint_some dist env trek stops.length (stops.length - 1) s
            ((runStops dist env trek stops.length 0 (stops.take (stops.length - 1))
              cache).cache) (Or.inr rfl) with ⟨o2, ho2⟩
        rw [Nat.zero_add] at hr
        rw [ho2] at hr
        rw [interpGo_get?_some _ _ _ _ hr] at ho
        cases ho
        exact (resolveStop_res_src dist env trek stops.length (stops.length - 1) s _
          o ho2).2.1
  case _ =>
    intro hall
    constructor
    · intro s hs hf
      have hr := runStops_get? dist env trek stops.length stops 0 cache 0 s hs
      have ha := resolveStop_fails_anchor dist env trek stops.length 0 s
        ((runStops dist env trek stops.length 0 (stops.take 0) cache).cache)
        (Or.inl rfl) (by simpa [List.take_zero, runStops] using hf)
      rw [Nat.add_zero, ha] at hr
      refine ⟨?_, rfl⟩
      simp only [resolveRoute, if_neg hne, hall, Bool.false_eq_true, if_false, interpolateMissing]
      exact interpGo_get?_some _ _ _ _ hr
    · intro s hs hf
      have hr := runStops_get? dist env trek stops.length stops 0 cache
        (stops.length - 1) s hs
      have ha := resolveStop_fails_anchor dist env trek stops.length (stops.length - 1) s
        ((runStops dist env trek stops.length 0 (stops.take (stops.length - 1))
          cache).cache) (Or.inr rfl) hf
      rw [Nat.zero_add, ha] at hr
      refine ⟨?_, rfl⟩
      simp only [resolveRoute, if_neg hne, hall, Bool.false_eq_true, if_false, interpolateMissing]
      exact interpGo_get?_some _ _ _ _ hr

/-- Witness for `C3_endpoints`: a total network outage over the origin
scenario anchors the first stop. -/
theorem C3_endpoints_witness :
    (stopsOrigin ≠ [] ∧ allHaveCoords stopsOrigin = false ∧
      stopsOrigin.get? 0 = some (namedStop 1 "Lukla" 10) ∧
      resolutionFails (fun _ _ _ _ => 0) envErr trekOrigin (namedStop 1 "Lukla" 10) []) ∧
    (resolveRoute (fun _ _ _ _ => 0) envErr stopsOrigin trekOrigin []).stops.get? 0 =
        some (anchorOut (namedStop 1 "Lukla" 10) trekOrigin) ∧
      (anchorOut (namedStop 1 "Lukla" 10) trekOrigin).status = .Anchored := by
  have hne : stopsOrigin ≠ [] := by with_unfolding_all decide
  have hf : resolutionFails (fun _ _ _ _ => 0) envErr trekOrigin
      (namedStop 1 "Lukla" 10) [] :=
    Or.inr (Or.inr (Or.inr (by with_unfolding_all rfl)))
  have h := C3_endpoints (fun _ _ _ _ => 0) envErr stopsOrigin trekOrigin [] hne
  exact ⟨⟨hne, by with_unfolding_all rfl, by with_unfolding_all rfl, hf⟩,
    (h.2.2.2 (by with_unfolding_all rfl)).1 (namedStop 1 "Lukla" 10)
      (by with_unfolding_all rfl) hf⟩

/-- Claim C4: for every input and every per-stop outcome (any distance
function, environment and cache) the output has exactly the input's
length, and it is positionally aligned with the input — the entry at
index `i` either spreads the input stop at index `i` (carrying its day and
metadata) or is an interpolated entry built for that same position; no
re-sorting happens. -/
theorem C4_length_order (dist : Dist) (env : Env) (stops : List Stop) (trek : Trek)
    (cache : Cache) :
    (resolveRoute dist env stops trek cache).stops.length = stops.length ∧
    ∀ i s, stops.get? i = some s →
      ∃ o, (resolveRoute dist env stops trek cache).stops.get? i = some o ∧
        (o.src = some s ∨ (o.src = none ∧ o.interpolated = true)) := by
  refine ⟨resolveRoute_length dist env stops trek cache, ?_⟩
  intro i s hs
  have hne : stops ≠ [] := by
    intro hnil
    rw [hnil] at hs
    simp at hs
  by_cases hall : allHaveCoords stops = true
  · refine ⟨providedOut s, ?_, Or.inl rfl⟩
    simp only [resolveRoute, if_neg hne, hall, if_true, List.get?_map, hs]
    rfl
  · have hr := runStops_get? dist env trek stops.length stops 0 cache i s hs
    rw [Nat.zero_add] at hr
    cases hres : (resolveStop dist env trek stops.length i s
        ((runStops dist env trek stops.length 0 (stops.take i) cache).cache)).res with
    | some o =>
      rw [hres] at hr
      refine ⟨o, ?_, Or.inl (resolveStop_res_src dist env trek stops.length i s _ o hres).1⟩
      simp only [resolveRoute, if_neg hne, hall, Bool.false_eq_true, if_false,
        interpolateMissing]
      exact interpGo_get?_some _ _ _ _ hr
    | none =>
      rw [hres] at hr
      refine ⟨midpointStop
          (lastKnownAt (trek.longitude, trek.latitude)
            ((runStops dist env trek stops.length 0 stops cache).results.take i))
          ((firstCoords
              ((runStops dist env trek stops.length 0 stops cache).results.drop (i + 1))).getD
            (lastKnownAt (trek.longitude, trek.latitude)
              ((runStops dist env trek stops.length 0 stops cache).results.take i))),
        ?_, Or.inr ⟨rfl, rfl⟩⟩
      simp only [resolveRoute, if_neg hne, hall, Bool.false_eq_true, if_false,
        interpolateMissing]
      exact interpGo_get?_none _ _ _ hr

/-- Witness for `C4_length_order` on the origin scenario, index 1. -/
theorem C4_length_order_witness :
    stopsOrigin.get? 1 = some (namedStop 2 "Camp 2" 20) ∧
    ∃ o, (resolveRoute (fun _ _ _ _ => 0) envOrigin stopsOrigin trekOrigin []).stops.get? 1 =
        some o ∧
      (o.src = some (namedStop 2 "Camp 2" 20) ∨ (o.src = none ∧ o.interpolated = true)) := by
  refine ⟨by with_unfolding_all rfl, ?_⟩
  exact (C4_length_order (fun _ _ _ _ => 0) envOrigin stopsOrigin trekOrigin []).2 1
    (namedStop 2 "Camp 2" 20) (by with_unfolding_all rfl)

/-- Claim C5: when every input stop already carries numeric coordinates
the pipeline short-circuits — the output is the input list itself (each
stop spread with its own coalesced coordinates), every stop has status
Provided, the cache is untouched, nothing is logged, and zero network
calls are issued. -/
theorem C5_short_circuit (dist : Dist) (env : Env) (stops : List Stop) (trek : Trek)
    (cache : Cache) (hall : allHaveCoords stops = true) :
    resolveRoute dist env stops trek cache =
      ⟨stops.map providedOut, cache, 0, []⟩ ∧
    ∀ o ∈ (resolveRoute dist env stops trek cache).stops,
      o.status = .Provided ∧ o.interpolated = false ∧ o.anchored = false ∧
        o.geocodedName = none := by
  have h1 : resolveRoute dist env stops trek cache = ⟨stops.map providedOut, cache, 0, []⟩ := by
    by_cases hnil : stops = []
    · subst hnil; rfl
    · simp [resolveRoute, hnil, hall]
  refine ⟨h1, ?_⟩
  intro o hmem
  rw [h1] at hmem
  rcases List.mem_map.mp hmem with ⟨s, _, hso⟩
  rw [← hso]
  exact ⟨rfl, rfl, rfl, rfl⟩

/-- Witness for `C5_short_circuit` on a one-stop list that already has
coordinates. -/
theorem C5_short_circuit_witness :
    allHaveCoords [coordStop] = true ∧
    resolveRoute (fun _ _ _ _ => 0) envErr [coordStop] trekOrigin [] =
      ⟨[coordStop].map providedOut, [], 0, []⟩ := by
  have hall : allHaveCoords [coordStop] = true := by with_unfolding_all rfl
  exact ⟨hall,
    (C5_short_circuit (fun _ _ _ _ => 0) envErr [coordStop] trekOrigin [] hall).1⟩

/-- Claim C6: re-resolving the identical stops and anchor against the
cache left by the first run yields bit-identical output stops, issues
zero network calls and logs nothing — even if the network environment
changed in between, because every lookup hits the cache; and a cached
null (known unresolvable) is returned as-is on hit, with no retry fetch. -/
theorem C6_idempotent (dist : Dist) (env env2 : Env) (stops : List Stop) (trek : Trek)
    (cache : Cache) :
    ((resolveRoute dist env2 stops trek
          (resolveRoute dist env stops trek cache).cache).stops =
        (resolveRoute dist env stops trek cache).stops ∧
      (resolveRoute dist env2 stops trek
          (resolveRoute dist env stops trek cache).cache).calls = 0 ∧
      (resolveRoute dist env2 stops trek
          (resolveRoute dist env stops trek cache).cache).warns = []) ∧
    ∀ (name country : String) (lng lat : ℚ) (c : Cache),
      cget c (cacheKey name lat lng) = some none →
      geocode dist env2 name country lng lat c = ⟨none, c, 0, []⟩ := by
  constructor
  · by_cases hnil : stops = []
    · subst hnil
      exact ⟨rfl, rfl, rfl⟩
    · by_cases hall : allHaveCoords stops = true
      · simp [resolveRoute, hnil, hall]
      · have hw := runStops_warm dist env env2 trek stops.length stops 0 cache
          (runStops dist env trek stops.length 0 stops cache).cache (extends_refl _)
        simp only [resolveRoute, if_neg hnil, hall, Bool.false_eq_true, if_false, hw]
        refine ⟨?_, ?_, ?_⟩ <;> first | rfl | trivial
  · intro name country lng lat c hc
    exact geocode_warm dist env2 name country lng lat c none hc

/-- Witness for `C6_idempotent`: the cached-null clause at a concrete
pre-populated cache. -/
theorem C6_idempotent_witness :
    cget (cset [] (cacheKey "Lukla" 0 180) none) (cacheKey "Lukla" 0 180) = some none ∧
    geocode distArc envPacific "Lukla" "Nepal" 180 0
        (cset [] (cacheKey "Lukla" 0 180) none) =
      ⟨none, cset [] (cacheKey "Lukla" 0 180) none, 0, []⟩ := by
  have hc : cget (cset ([] : Cache) (cacheKey "Lukla" 0 180) none)
      (cacheKey "Lukla" 0 180) = some none := cget_cset_self [] _ none
  exact ⟨hc,
    (C6_idempotent distArc envPacific envPacific [] trekPacific []).2
      "Lukla" "Nepal" 180 0 (cset [] (cacheKey "Lukla" 0 180) none) hc⟩

/-- Claim C9: per-stop failures are converted to null results, never
propagated — a fetch that throws yields a cached null and a null result;
the batch always completes with one output entry per input stop; and in
the worst case (every fetch throws, empty cache, not all stops carrying
coordinates) every output stop is Anchored or Interpolated. -/
theorem C9_never_rejects :
    (∀ (dist : Dist) (name country : String) (lng lat : ℚ) (c : Cache),
        cget c (cacheKey name lat lng) = none →
        geocode dist envErr name country lng lat c =
          ⟨none, cset c (cacheKey name lat lng) none, 1, []⟩) ∧
    (∀ (dist : Dist) (env : Env) (stops : List Stop) (trek : Trek) (c : Cache),
        (resolveRoute dist env stops trek c).stops.length = stops.length) ∧
    ∀ (dist : Dist) (stops : List Stop) (trek : Trek),
      allHaveCoords stops = false →
      ∀ o ∈ (resolveRoute dist envErr stops trek []).stops,
        o.status = .Anchored ∨ o.status = .Interpolated := by
  refine ⟨?_, ?_, ?_⟩
  · intro dist name country lng lat c hmiss
    simp [geocode, hmiss, envErr]
  · intro dist env stops trek c
    exact resolveRoute_length dist env stops trek c
  · intro dist stops trek hall o hmem
    have hnull : NullCache [] := by
      intro k v hv
      exact Option.noConfusion hv
    have hne : stops ≠ [] := by
      intro hnil
      rw [hnil] at hall
      simp [allHaveCoords] at hall
    simp only [resolveRoute, if_neg hne, hall, Bool.false_eq_true, if_false,
      interpolateMissing] at hmem
    rcases interpGo_mem _ _ _ hmem with h | h
    · have h2 := runStops_errEnv dist stops.length stops 0 [] hnull o h
      left
      simp [OutStop.status, h2.1, h2.2]
    · right
      simp [OutStop.status, h.2.2.2]

/-- Witness for `C9_never_rejects`: concrete outage over the origin
scenario. -/
theorem C9_never_rejects_witness :
    (cget ([] : Cache) (cacheKey "X" 0 0) = none ∧
      geocode (fun _ _ _ _ => 0) envErr "X" "" 0 0 [] =
        ⟨none, cset [] (cacheKey "X" 0 0) none, 1, []⟩) ∧
    (allHaveCoords stopsOrigin = false ∧
      anchorOut (namedStop 1 "Lukla" 10) trekOrigin ∈
        (resolveRoute (fun _ _ _ _ => 0) envErr stopsOrigin trekOrigin []).stops ∧
      ((anchorOut (namedStop 1 "Lukla" 10) trekOrigin).status = .Anchored ∨
        (anchorOut (namedStop 1 "Lukla" 10) trekOrigin).status = .Interpolated)) := by
  have hall : allHaveCoords stopsOrigin = false := by with_unfolding_all rfl
  have hmem : anchorOut (namedStop 1 "Lukla" 10) trekOrigin ∈
      (resolveRoute (fun _ _ _ _ => 0) envErr stopsOrigin trekOrigin []).stops := by
    with_unfolding_all decide
  exact ⟨⟨rfl, C9_never_rejects.1 (fun _ _ _ _ => 0) "X" "" 0 0 [] rfl⟩,
    ⟨hall, hmem,
      C9_never_rejects.2.2 (fun _ _ _ _ => 0) stopsOrigin trekOrigin hall _ hmem⟩⟩

/-- Claim C10, failing evaluation.  Input days 1, 2, 3 with opaque
metadata 10, 20, 30; the middle stop is classified vague, resolves to
null, and is interpolated.  The interpolated entry spreads
`results[1] ?? {}` — but `results[1]` is exactly the null being replaced,
so the empty object is spread and the entry carries no source fields at
all: its day and metadata are gone, while the claim (and the spec) say
every input stop's day and opaque metadata pass through unchanged on
every resolution path. -/
theorem C10_metadata_dropped :
    (resolveRoute (fun _ _ _ _ => 0) envOrigin stopsOrigin trekOrigin []).stops.map
        (fun o => o.src) =
      [some (namedStop 1 "Lukla" 10), none, some (namedStop 3 "Dole" 30)] ∧
    stopsOrigin.map (fun s => (s.day, s.meta)) = [(1, 10), (2, 20), (3, 30)] ∧
    (resolveRoute (fun _ _ _ _ => 0) envOrigin stopsOrigin trekOrigin []).stops.map
        (fun o => o.status) = [.Geocoded, .Interpolated, .Geocoded] := by
  refine ⟨?_, ?_, ?_⟩
  · with_unfolding_all rfl
  · with_unfolding_all rfl
  · with_unfolding_all rfl

/-! Character-level lemmas for the parser claims. -/

theorem ws_toLower (c : Char) (h : isWS c = true) : c.toLower = c := by
  simp only [isWS, Bool.or_eq_true, decide_eq_true_eq] at h
  rcases h with ((((h | h) | h) | h) | h) | h <;> subst h <;> decide

theorem lowEq_ws (k c : Char) (hk : isWS k.toLower = false) (h : isWS c = true) :
    lowEq k c = false := by
  cases hlc : lowEq k c
  · rfl
  · exfalso
    have heq : k.toLower = c.toLower := of_decide_eq_true hlc
    rw [ws_toLower c h] at heq
    rw [heq, h] at hk
    cases hk

theorem dropCI_ws_head (kw : List Char) (k0 : Char) (ks : List Char)
    (hkw : kw = k0 :: ks) (hk : isWS k0.toLower = false) (c : Char) (cs : List Char)
    (h : isWS c = true) : dropCI kw (c :: cs) = none := by
  subst hkw
  simp [dropCI, lowEq_ws k0 c hk h]

theorem scanKw_ws (kw : List Char) (k0 : Char) (ks : List Char) (hkw : kw = k0 :: ks)
    (hk : isWS k0.toLower = false) :
    ∀ (l : List Char) (b : Bool), (∀ c ∈ l, isWS c = true) → scanKw kw l b = none := by
  intro l
  induction l with
  | nil => intro b _; rfl
  | cons c cs ih =>
    intro b hws
    have hc : isWS c = true := hws c (List.mem_cons_self c cs)
    have hdrop : dropCI kw (c :: cs) = none := dropCI_ws_head kw k0 ks hkw hk c cs hc
    have hrec := ih (isWordChar c) (fun x hx => hws x (List.mem_cons_of_mem c hx))
    cases b <;> simp [scanKw, hdrop, hrec]

theorem dropWhile_all_ws (l : List Char) (h : ∀ c ∈ l, isWS c = true) :
    l.dropWhile isWS = [] :=
  List.dropWhile_eq_nil_iff.mpr h

theorem parenChop_ws (l : List Char) (h : ∀ c ∈ l, isWS c = true) :
    parenChop l = none := by
  simp [parenChop, dropWhile_all_ws l h]

theorem stripParensGo_ws : ∀ (fuel : Nat) (l : List Char),
    (∀ c ∈ l, isWS c = true) → stripParensGo fuel l = l := by
  intro fuel
  induction fuel with
  | zero => intro l _; rfl
  | succ n ih =>
    intro l h
    cases l with
    | nil => rfl
    | cons c cs =>
      have hchop : parenChop (c :: cs) = none := parenChop_ws _ h
      simp only [stripParensGo, hchop]
      rw [ih cs (fun x hx => h x (List.mem_cons_of_mem c hx))]

theorem trimChars_ws (l : List Char) (h : ∀ c ∈ l, isWS c = true) : trimChars l = [] := by
  simp [trimChars, dropWhile_all_ws l h]

/-- Claim C7, counterexample.  The regex `\bto\s+(.+)$` matches at the
leftmost qualifying position, so the parser keeps everything after the
FIRST word to, not the substring after the last occurrence: the claim
predicts "Gokyo" here, the code returns "Namche to Gokyo". -/
theorem C7_counterexample :
    parseLocationName "Lukla to Namche to Gokyo" = "Namche to Gokyo" ∧
      ("Namche to Gokyo" : String) ≠ "Gokyo" := by
  exact ⟨by decide, by decide⟩

/-- Claim C7, amended: the parser equals the spec-side description with
"first" in place of "last" — if the text contains the word to
(case-insensitive, at a word boundary) followed by whitespace and further
single-line text, the parser returns the text after the first such
occurrence; else likewise for at; else the whole string; always with
parentheticals stripped and whitespace trimmed; and empty or
whitespace-only input yields the empty string. -/
theorem C7_parse_rule :
    (∀ raw : String, parseLocationName raw = parseLocationNameSpec raw) ∧
    parseLocationName "Lukla to Namche Bazaar" = "Namche Bazaar" ∧
    parseLocationName "Rest day at Dole" = "Dole" ∧
    parseLocationName "Thorong La (5416m)" = "Thorong La" ∧
    (∀ raw : String, (∀ c ∈ raw.data, isWS c = true) → parseLocationName raw = "") := by
  refine ⟨?_, by decide, by decide, by decide, ?_⟩
  · intro raw
    by_cases h : raw = ""
    · subst h; decide
    · unfold parseLocationName parseLocationNameSpec
      rw [if_neg h]
  · intro raw hws
    by_cases h : raw = ""
    · subst h; decide
    · simp only [parseLocationName, if_neg h,
        scanKw_ws "to".data 't' ['o'] (by decide) (by decide) raw.data false hws,
        scanKw_ws "at".data 'a' ['t'] (by decide) (by decide) raw.data false hws]
      rw [stripParens, stripParensGo_ws _ _ hws, trimChars_ws _ hws]

/-- Witness for `C7_parse_rule` at concrete inputs, including a
whitespace-only one. -/
theorem C7_parse_rule_witness :
    parseLocationName "Rest day at Dole" = parseLocationNameSpec "Rest day at Dole" ∧
    (∀ c ∈ ("   " : String).data, isWS c = true) ∧
    parseLocationName "   " = "" := by
  exact ⟨C7_parse_rule.1 "Rest day at Dole", by decide, C7_parse_rule.2.2.2.2 "   " (by decide)⟩

/-- The regrouping of the nine classifier atoms between the source's
pattern-array order and the claim's enumeration order. -/
theorem or_regroup (a b c d e f g h i : Bool) :
    (a || (b || (c || (d || (e || (f || (g || (h || (i || false))))))))) =
      (a || b || c || d || (e || g) || f || h || i) := by
  cases a <;> cases b <;> cases c <;> cases d <;> cases e <;> cases f <;> cases g <;>
    cases h <;> cases i <;> rfl

/-- Claim C8, counterexample.  The source pattern `/^checkpoint/i` is an
unanchored prefix: any name beginning with the word checkpoint classifies
as vague, not only checkpoint plus an optional number as the claim's
fixed set has it. -/
theorem C8_counterexample :
    isVague "Checkpoint Charlie" = true ∧
      isVagueClaimed "Checkpoint Charlie" = false := by
  exact ⟨by decide, by decide⟩

/-- Claim C8, amended: the classifier returns true exactly for the
claimed fixed set with checkpoint read as a bare prefix — camp plus
optional number, high camp, base camp, ABC, pass and named passes (col
followed by whitespace), summit, any name beginning with checkpoint, rest
day — matched case-insensitively on the trimmed name; in particular the
claimed examples classify as stated. -/
theorem C8_classifier :
    (∀ n : String, isVague n = isVagueAmended n) ∧
    isVague "Camp 2" = true ∧ isVague "High Camp" = true ∧
    isVague "Base Camp" = true ∧ isVague "ABC" = true ∧ isVague "Pass" = true ∧
    isVague "Summit" = true ∧ isVague "Namche Bazaar" = false := by
  refine ⟨?_, by decide, by decide, by decide, by decide, by decide, by decide, by decide⟩
  intro n
  simp only [isVague, isVagueAmended, VAGUE, List.any_cons, List.any_nil]
  exact or_regroup _ _ _ _ _ _ _ _ _

end TrekMind
